import Mathlib

/-!
Shallow embedding of the event-ingestion pipeline of the repository
(api_smartcontract: tasks.py, models.py, validators.py).

The embedding covers:
* the decoded-argument value domain handled by the pipeline
  (strings, arbitrary-precision integers, booleans, None);
* the JSON serialization of the decoded arguments
  (tasks.py line 177: json.dumps with default=str), modelled at the
  JSON-value level: the tree below determines the text that json.dumps
  prints, so claims about the stored payload are stated on the tree;
* the fraud classifier detect_fraud (tasks.py lines 19-55);
* the field validators (validators.py);
* the normalization of per-event typed columns (tasks.py lines 180-190
  together with the column coercions declared in models.py);
* the per-entry ingestion step of poll_contract_events
  (tasks.py lines 130-198), the per-event-type loop (lines 118-201) and
  the two run counters (lines 114-115, 163-164, 194).
-/

/-- A decoded event-argument value as produced by the log decoding step.
Current event types of the contract produce strings (addresses, messages),
unbounded integers (amounts, timestamps), booleans and None, which is the
value domain the spec fixes for the stored payload. -/
inductive PyVal where
  | vStr (s : String)
  | vInt (n : Int)
  | vBool (b : Bool)
  | vNone
deriving Repr, DecidableEq

/-- Lookup of a key in the decoded-argument mapping, mirroring
decoded_args.get(key) on a dict (keys are unique; first match wins). -/
def getArg : List (String × PyVal) → String → Option PyVal
  | [], _ => none
  | p :: rest, k => if p.1 = k then some p.2 else getArg rest k

/-- A JSON value, the target of json.dumps at tasks.py line 177. -/
inductive Json where
  | jStr (s : String)
  | jNum (n : Int)
  | jBool (b : Bool)
  | jNull
  | jObj (fields : List (String × Json))
deriving Repr

/-- How json.dumps(-, default=str) serializes one decoded value.
Python json serializes str, int (at any magnitude), bool and None
natively; the default=str fallback is invoked only for values outside
this domain (for example byte strings), which current event argument
values do not include. In particular an int of any size becomes a JSON
number (its decimal digits, unquoted), never a quoted string. -/
def pyToJson : PyVal → Json
  | PyVal.vStr s => Json.jStr s
  | PyVal.vInt n => Json.jNum n
  | PyVal.vBool b => Json.jBool b
  | PyVal.vNone => Json.jNull

/-- json.dumps(decoded_args, default=str) (tasks.py line 177), at the
JSON-value level: the full decoded-argument mapping becomes one JSON
object with the same keys in order. -/
def dumps_default_str (args : List (String × PyVal)) : Json :=
  Json.jObj (args.map (fun p => (p.1, pyToJson p.2)))

/-- Reading one stored JSON value back into the decoded-value domain
(the inverse direction of pyToJson, as json.loads would produce it). -/
def jsonToPy : Json → Option PyVal
  | Json.jStr s => some (PyVal.vStr s)
  | Json.jNum n => some (PyVal.vInt n)
  | Json.jBool b => some (PyVal.vBool b)
  | Json.jNull => some PyVal.vNone
  | Json.jObj _ => none

/-- Reading the fields of a stored JSON object back into a
decoded-argument mapping. -/
def jsonFieldsToArgs : List (String × Json) → Option (List (String × PyVal))
  | [] => some []
  | (k, j) :: rest =>
    match jsonToPy j, jsonFieldsToArgs rest with
    | some v, some r => some ((k, v) :: r)
    | _, _ => none

/-- Reading a stored payload back into a decoded-argument mapping. -/
def loadsArgs : Json → Option (List (String × PyVal))
  | Json.jObj fs => jsonFieldsToArgs fs
  | _ => none

/-- ASCII lowercasing of one character, as Python str.lower acts on the
ASCII range (the only range exercised by the configured phrase and the
event messages considered here). -/
def lowerChar (c : Char) : Char :=
  if 'A' ≤ c && c ≤ 'Z' then Char.ofNat (c.toNat + 32) else c

/-- message.lower() (tasks.py line 44), character by character. -/
def lowerStr (s : String) : String := String.mk (s.data.map lowerChar)

/-- The configured suspicious phrase of fraud rule 2 (tasks.py line 44). -/
def suspicious_phrase : String := "phishing attempt"

/-- The fixed high-amount threshold of fraud rule 1, Decimal(10**24)
(tasks.py line 33). -/
def fraud_threshold : Int := 10 ^ 24

/-- Whether the needle list is an initial segment of the hay list. -/
def leadsWith : List Char → List Char → Bool
  | [], _ => true
  | _ :: _, [] => false
  | a :: as, b :: bs => a == b && leadsWith as bs

/-- Whether the needle list occurs contiguously inside the hay list;
this is Python substring containment, needle in hay (tasks.py line 44). -/
def containsSeq (needle : List Char) : List Char → Bool
  | [] => leadsWith needle []
  | l@(_ :: rest) => leadsWith needle l || containsSeq needle rest

/-- detect_fraud (tasks.py lines 19-55). The event_log parameter of the
source is used only to format log messages, so it does not appear here.
Rule 1 (lines 29-38) fires for TransactionSubmitted when the decoded
amount is present, is an int in the Python sense (bool being an int
subtype passes the isinstance check with value 0 or 1) and exceeds the
threshold under exact Decimal comparison. Rule 2 (lines 41-48) fires for
ContractEvent when the lowercased decoded message contains the phrase;
a missing message key yields the default empty string, and a message
without the lower() method raises inside the try block, which is
swallowed, so the rule is false in both cases. The verdict is the OR of
the rules. -/
def detect_fraud (event_name : String) (decoded_args : List (String × PyVal)) : Bool :=
  let rule1 : Bool :=
    if event_name = "TransactionSubmitted" then
      if decoded_args.isEmpty then false
      else
        match getArg decoded_args "amount" with
        | some (PyVal.vInt n) => decide (fraud_threshold < n)
        | some (PyVal.vBool b) => decide (fraud_threshold < (if b then (1 : Int) else 0))
        | _ => false
    else false
  let rule2 : Bool :=
    if event_name = "ContractEvent" then
      if decoded_args.isEmpty then false
      else
        match getArg decoded_args "message" with
        | some (PyVal.vStr s) => containsSeq suspicious_phrase.data (lowerStr s).data
        | _ => false
    else false
  rule1 || rule2

/-- Whether a character is a hexadecimal digit, [a-fA-F0-9]. -/
def isHexChar (c : Char) : Bool :=
  c.isDigit || ('a' ≤ c && c ≤ 'f') || ('A' ≤ c && c ≤ 'F')

/-- validate_transaction_hash (validators.py lines 13-19): the value
must match 0x followed by exactly 64 hexadecimal digits. True means the
validator returns, false means it raises ValidationError. -/
def validate_transaction_hash (s : String) : Bool :=
  match s.data with
  | '0' :: 'x' :: rest => rest.length == 64 && rest.all isHexChar
  | _ => false

/-- validate_block_number (validators.py lines 21-27): the value must be
a non-negative integer. The integer typing is carried by the Int type of
the embedding. -/
def validate_block_number (b : Int) : Bool := decide (0 ≤ b)

/-- Parsing of a decimal integer literal, optionally signed, as both
Python int(-) and Decimal(-) read the integer-literal strings produced
for the event arguments considered here (wider literal grammars such as
fractions, exponents, surrounding whitespace or underscore separators
are not produced by the event types of this contract and are not
modelled). none means the conversion raises. -/
def digitsValAux : List Char → Nat → Option Nat
  | [], acc => some acc
  | c :: rest, acc =>
    if '0' ≤ c && c ≤ '9' then digitsValAux rest (acc * 10 + (c.toNat - '0'.toNat))
    else none

/-- Parse a whole string as an optionally signed decimal integer. -/
def parseIntLit (s : String) : Option Int :=
  match s.data with
  | [] => none
  | '-' :: [] => none
  | '-' :: rest => (digitsValAux rest 0).map (fun n => -(n : Int))
  | '+' :: [] => none
  | '+' :: rest => (digitsValAux rest 0).map (fun n => (n : Int))
  | l => (digitsValAux l 0).map (fun n => (n : Int))

/-- Python str(-) of a decoded value, the coercion Django CharField and
TextField columns apply when a row is saved (models.py lines 77-84);
it never raises. -/
def pyStr : PyVal → String
  | PyVal.vStr s => s
  | PyVal.vInt n => toString n
  | PyVal.vBool b => if b then "True" else "False"
  | PyVal.vNone => "None"

/-- Decimal(value) as applied to the decoded amount (tasks.py line 185),
restricted to the stored integer result (event_amount has
decimal_places=0, models.py line 79). A bool converts as its int value;
a string must be an integer literal; none means the conversion raises
and the per-entry exception handler fires. -/
def pyDecimal : PyVal → Option Int
  | PyVal.vInt n => some n
  | PyVal.vBool b => some (if b then 1 else 0)
  | PyVal.vStr s => parseIntLit s
  | PyVal.vNone => none

/-- int(value) as Django applies it when saving a value into the
PositiveBigIntegerField column event_onchain_timestamp (models.py
line 85; IntegerField coerces with int at save time). none means the
coercion raises and the per-entry exception handler fires. -/
def pyIntField : PyVal → Option Int
  | PyVal.vInt n => some n
  | PyVal.vBool b => some (if b then 1 else 0)
  | PyVal.vStr s => parseIntLit s
  | PyVal.vNone => none

/-- A nullable string column fed from decoded_args.get(key): an absent
key or a None value stores NULL, any other value stores its str form. -/
def strOrNull : Option PyVal → Option String
  | none => none
  | some PyVal.vNone => none
  | some v => some (pyStr v)

/-- A nullable integer column fed from decoded_args.get(key) through a
possibly raising conversion: an absent key or a None value stores NULL
(the conversion is skipped), otherwise the conversion must succeed.
The outer none means the entry raises. -/
def coerceOpt (v? : Option PyVal) (conv : PyVal → Option Int) : Option (Option Int) :=
  match v? with
  | none => some none
  | some PyVal.vNone => some none
  | some v => (conv v).map some

/-- The per-event-type typed columns of ContractEvent (models.py lines
75-85), populated by tasks.py lines 180-190. Fields not populated for
the event type stay NULL. -/
structure TypedFields where
  event_from_address : Option String := none
  event_to_address : Option String := none
  event_amount : Option Int := none
  event_tx_hash_param : Option String := none
  event_sender_address : Option String := none
  event_message : Option String := none
  event_onchain_timestamp : Option Int := none
deriving Repr, DecidableEq

/-- Population of the typed columns by event type (tasks.py lines
180-190 plus the save-time column coercions of models.py). none means
an exception is raised while building or saving the row, after the
fraud check already ran. Unknown event types populate no typed column. -/
def normalizeTyped (event_name : String) (args : List (String × PyVal)) : Option TypedFields :=
  if event_name = "TransactionSubmitted" then
    match coerceOpt (getArg args "amount") pyDecimal with
    | none => none
    | some am =>
      some { event_from_address := strOrNull (getArg args "from"),
             event_to_address := strOrNull (getArg args "to"),
             event_amount := am,
             event_tx_hash_param := strOrNull (getArg args "txHash") }
  else if event_name = "ContractEvent" then
    match coerceOpt (getArg args "timestamp") pyIntField with
    | none => none
    | some ts =>
      some { event_sender_address := strOrNull (getArg args "sender"),
             event_message := strOrNull (getArg args "message"),
             event_onchain_timestamp := ts }
  else some {}

/-- A stored Transaction row (models.py lines 8-36): hash primary key,
block number, and the created_at timestamp set once from the clock. -/
structure TransactionRec where
  transaction_hash : String
  block_number : Int
  created_at : Nat
deriving Repr, DecidableEq

/-- A stored ContractEvent row (models.py lines 38-92): the common
columns of tasks.py lines 170-178 plus the per-type typed columns. -/
structure ContractEventRec where
  transaction : String
  log_index : Nat
  event_name : String
  contract_address : String
  block_timestamp : Nat
  is_fraudulent : Bool
  data : Json
  typed : TypedFields
deriving Repr

/-- The persisted state: the Transaction table and the ContractEvent
table. -/
structure DB where
  transactions : List TransactionRec
  events : List ContractEventRec

/-- The empty database. -/
def emptyDB : DB := { transactions := [], events := [] }

/-- Row lookup by primary key, Transaction.objects.get by hash. -/
def findTx : List TransactionRec → String → Option TransactionRec
  | [], _ => none
  | t :: ts, h => if t.transaction_hash = h then some t else findTx ts h

/-- Overwrite the block number of the row keyed by the hash
(transaction_obj.save() after setting block_number, tasks.py lines
145-146); the other columns of the row are untouched. -/
def setTxBlock : List TransactionRec → String → Int → List TransactionRec
  | [], _, _ => []
  | t :: ts, h, b =>
    if t.transaction_hash = h then { t with block_number := b } :: ts
    else t :: setTxBlock ts h b

/-- Transaction.objects.get_or_create followed by the conditional block
number raise (tasks.py lines 139-146): create the row with the observed
block number if the hash is new, otherwise raise the stored block
number when the observation is higher, and never lower it. -/
def upsertTransaction (db : DB) (h : String) (b : Int) (now : Nat) : DB :=
  match findTx db.transactions h with
  | none =>
    { db with transactions :=
        { transaction_hash := h, block_number := b, created_at := now } :: db.transactions }
  | some t =>
    if t.block_number < b then { db with transactions := setTxBlock db.transactions h b }
    else db

/-- ContractEvent.objects.filter(transaction, log_index).exists()
(tasks.py line 149), the duplicate check on the composite key. -/
def eventExists : List ContractEventRec → String → Nat → Bool
  | [], _, _ => false
  | ev :: evs, h, i =>
    if ev.transaction = h ∧ ev.log_index = i then true else eventExists evs h i

/-- One raw log entry as the polling loop sees it (tasks.py lines
130-134): the fields read from event_log, the result of the decoding
step process_log (none models a raised DecodeError), and the block
timestamp that get_block_timestamp returns for its block (that helper
never raises: it falls back to the current time, tasks.py lines 58-64). -/
structure RawLogEntry where
  transactionHash : String
  blockNumber : Int
  logIndex : Nat
  decoded : Option (List (String × PyVal))
  blockTimestamp : Nat
deriving Repr

/-- The observable outcome of processing one raw log entry. errorEarly
is an exception raised before the fraud check (decode or validation);
errorLate is an exception raised after the fraud check ran with the
recorded verdict (building or saving the event row). Both error
outcomes roll back the atomic block. -/
inductive EntryOutcome where
  | inserted (fraud : Bool)
  | duplicateSkipped
  | errorEarly
  | errorLate (fraud : Bool)
deriving Repr, DecidableEq

/-- The per-entry body of poll_contract_events (tasks.py lines 130-198)
inside its atomic block: upsert the Transaction, check the duplicate
key, decode, validate, classify, normalize and insert. An exception
anywhere in the block rolls the database back to its state before the
entry; the duplicate path commits the Transaction upsert and skips the
insert. -/
def ingestEntry (event_name contractAddr : String) (now : Nat) (db : DB) (e : RawLogEntry) :
    DB × EntryOutcome :=
  let dbUp := upsertTransaction db e.transactionHash e.blockNumber now
  if eventExists dbUp.events e.transactionHash e.logIndex then
    (dbUp, EntryOutcome.duplicateSkipped)
  else
    match e.decoded with
    | none => (db, EntryOutcome.errorEarly)
    | some args =>
      if validate_transaction_hash e.transactionHash && validate_block_number e.blockNumber then
        let fraud := detect_fraud event_name args
        match normalizeTyped event_name args with
        | none => (db, EntryOutcome.errorLate fraud)
        | some tf =>
          let ev : ContractEventRec :=
            { transaction := e.transactionHash,
              log_index := e.logIndex,
              event_name := event_name,
              contract_address := contractAddr,
              block_timestamp := e.blockTimestamp,
              is_fraudulent := fraud,
              data := dumps_default_str args,
              typed := tf }
          ({ dbUp with events := ev :: dbUp.events }, EntryOutcome.inserted fraud)
      else (db, EntryOutcome.errorEarly)

/-- Whether an entry processes without raising: it decodes, its hash
and block number validate, and its typed columns build and save. This
is intrinsic to the entry and its event type. -/
def entryOk (event_name : String) (e : RawLogEntry) : Bool :=
  match e.decoded with
  | none => false
  | some args =>
    validate_transaction_hash e.transactionHash && validate_block_number e.blockNumber &&
      (normalizeTyped event_name args).isSome

/-- Whether an entry cannot raise after the fraud check: either it
already fails decode or validation, or its typed columns build and
save. -/
def lateOk (event_name : String) (e : RawLogEntry) : Bool :=
  match e.decoded with
  | none => true
  | some args =>
    !(validate_transaction_hash e.transactionHash && validate_block_number e.blockNumber) ||
      (normalizeTyped event_name args).isSome

/-- The inner for loop of poll_contract_events over the entries of one
event type (tasks.py lines 130-198), threading the database and
collecting each entry outcome in order. -/
def runBatch (event_name contractAddr : String) (now : Nat) :
    DB → List RawLogEntry → DB × List EntryOutcome
  | db, [] => (db, [])
  | db, e :: rest =>
    let r := ingestEntry event_name contractAddr now db e
    let rr := runBatch event_name contractAddr now r.1 rest
    (rr.1, r.2 :: rr.2)

/-- Whether an outcome increments processed_count (tasks.py line 194). -/
def isInserted : EntryOutcome → Bool
  | EntryOutcome.inserted _ => true
  | _ => false

/-- Whether an outcome is an insert with verdict true. -/
def isInsertedTrue : EntryOutcome → Bool
  | EntryOutcome.inserted true => true
  | _ => false

/-- Whether an outcome increments fraud_detected_count (tasks.py lines
163-164): the increment happens right after the fraud check, so an
entry that raises later in the block still counts when its verdict was
true. -/
def flaggedFraud : EntryOutcome → Bool
  | EntryOutcome.inserted f => f
  | EntryOutcome.errorLate f => f
  | _ => false

/-- The processed_count accumulated over a list of entry outcomes. -/
def countInserted (os : List EntryOutcome) : Nat := os.countP isInserted

/-- The fraud_detected_count accumulated over a list of entry outcomes. -/
def countFlagged (os : List EntryOutcome) : Nat := os.countP flaggedFraud

/-- What fetching one event type produced (tasks.py lines 118-128):
a list of raw entries, or the event name missing from the ABI (warn and
continue, lines 122-124), or a raised connectivity or filter error
caught by the per-type handler (lines 200-201). -/
inductive FetchResult where
  | fetched (entries : List RawLogEntry)
  | absentFromAbi
  | connectivityError
deriving Repr

/-- The outer for loop of poll_contract_events over the configured
event types (tasks.py lines 116-201): each type contributes its batch
outcomes, a type that fails to fetch contributes nothing, and the loop
always runs to the end and yields the counters of the run summary. -/
def poll_event_types (contractAddr : String) (now : Nat) :
    DB → List (String × FetchResult) → DB × List EntryOutcome
  | db, [] => (db, [])
  | db, (event_name, FetchResult.fetched es) :: rest =>
    let r := runBatch event_name contractAddr now db es
    let rr := poll_event_types contractAddr now r.1 rest
    (rr.1, r.2 ++ rr.2)
  | db, (_, FetchResult.absentFromAbi) :: rest => poll_event_types contractAddr now db rest
  | db, (_, FetchResult.connectivityError) :: rest => poll_event_types contractAddr now db rest

/-- An arbitrary interleaved sequence of per-entry ingestions, each
tagged with the event type it was polled under; this is how repeated or
overlapping runs compose, since each run is a sequence of ingestEntry
steps. -/
def ingestSeq (contractAddr : String) (now : Nat) : DB → List (String × RawLogEntry) → DB
  | db, [] => db
  | db, (event_name, e) :: rest =>
    ingestSeq contractAddr now (ingestEntry event_name contractAddr now db e).1 rest

/-- The stored block number of the Transaction row keyed by a hash. -/
def txBlock (db : DB) (h : String) : Option Int :=
  (findTx db.transactions h).map (fun t => t.block_number)

/-- The deduplication key of an entry. -/
def entryKey (e : RawLogEntry) : String × Nat := (e.transactionHash, e.logIndex)

/-- Whether the decoded amount key of the argument mapping is absent or
holds anything other than an int value. -/
def amountNotInt (args : List (String × PyVal)) : Prop :=
  match getArg args "amount" with
  | some (PyVal.vInt _) => False
  | _ => True


/-! ### Concrete inputs used by the witnesses -/

/-- A well-formed transaction hash, 0x followed by 64 hex digits. -/
def hashA : String := "0xaaaaaaaaaaaaaaaaaaaaaaaaaaaaaaaaaaaaaaaaaaaaaaaaaaaaaaaaaaaaaaaa"

/-- A second well-formed transaction hash distinct from hashA. -/
def hashB : String := "0xbbbbbbbbbbbbbbbbbbbbbbbbbbbbbbbbbbbbbbbbbbbbbbbbbbbbbbbbbbbbbbbb"

/-- The checksummed contract address the orchestrator stores on every
event row. -/
def contractAddr0 : String := "0x1111111111111111111111111111111111111111"

/-- A well-formed generic-message entry with a harmless message. -/
def entryC1 : RawLogEntry :=
  { transactionHash := hashA, blockNumber := 100, logIndex := 0,
    decoded := some [("sender", PyVal.vStr "0x2222222222222222222222222222222222222222"),
                     ("message", PyVal.vStr "hello world"),
                     ("timestamp", PyVal.vInt 1700000000)],
    blockTimestamp := 1700000000 }

/-- An observation of hashA at block 105, log position 0. -/
def entryC2a : RawLogEntry :=
  { transactionHash := hashA, blockNumber := 105, logIndex := 0,
    decoded := some [("message", PyVal.vStr "hello"), ("timestamp", PyVal.vInt 7)],
    blockTimestamp := 10 }

/-- An observation of hashA at the lower block 100, log position 1,
arriving after the block-105 observation. -/
def entryC2b : RawLogEntry :=
  { transactionHash := hashA, blockNumber := 100, logIndex := 1,
    decoded := some [("message", PyVal.vStr "hello again"), ("timestamp", PyVal.vInt 8)],
    blockTimestamp := 10 }

/-- A generic-message entry whose message triggers the fraud rule but
whose decoded timestamp is a non-numeric string, so saving the row
raises after the fraud counter was already incremented. -/
def entryC3bad : RawLogEntry :=
  { transactionHash := hashA, blockNumber := 5, logIndex := 0,
    decoded := some [("message", PyVal.vStr "This is a phishing attempt"),
                     ("timestamp", PyVal.vStr "pending")],
    blockTimestamp := 50 }

/-- A well-formed generic-message entry whose message triggers the
fraud rule. -/
def entryC3ok : RawLogEntry :=
  { transactionHash := hashA, blockNumber := 5, logIndex := 0,
    decoded := some [("message", PyVal.vStr "a phishing attempt"),
                     ("timestamp", PyVal.vInt 3)],
    blockTimestamp := 50 }

/-- An entry whose decoding raises, an early per-entry error. -/
def entryC3err : RawLogEntry :=
  { transactionHash := hashA, blockNumber := 6, logIndex := 1,
    decoded := none, blockTimestamp := 50 }

/-- A well-formed entry on hashA, log position 0. -/
def entryC7a : RawLogEntry :=
  { transactionHash := hashA, blockNumber := 10, logIndex := 0,
    decoded := some [("timestamp", PyVal.vInt 4)], blockTimestamp := 2 }

/-- A malformed entry (decode raises) on hashA, log position 1. -/
def entryC7bad : RawLogEntry :=
  { transactionHash := hashA, blockNumber := 11, logIndex := 1,
    decoded := none, blockTimestamp := 2 }

/-- A well-formed entry on hashB, log position 0. -/
def entryC7b : RawLogEntry :=
  { transactionHash := hashB, blockNumber := 12, logIndex := 0,
    decoded := some [("timestamp", PyVal.vNone)], blockTimestamp := 2 }

/-- A store already holding a Transaction for hashA, first seen at
clock 3 with block number 50. -/
def dbC9 : DB :=
  { transactions := [{ transaction_hash := hashA, block_number := 50, created_at := 3 }],
    events := [] }

/-- A later observation of hashA at the higher block 120. -/
def entryC9 : RawLogEntry :=
  { transactionHash := hashA, blockNumber := 120, logIndex := 0,
    decoded := some [("timestamp", PyVal.vInt 1)], blockTimestamp := 9 }


/-! ### Helper lemmas about the store operations -/

theorem upsert_events (db : DB) (h : String) (b : Int) (now : Nat) :
    (upsertTransaction db h b now).events = db.events := by
  unfold upsertTransaction
  cases findTx db.transactions h with
  | none => rfl
  | some t => dsimp only; split <;> rfl

theorem findTx_setTxBlock (ts : List TransactionRec) (h : String) (b : Int) :
    findTx (setTxBlock ts h b) h
      = (findTx ts h).map (fun t => { t with block_number := b }) := by
  induction ts with
  | nil => rfl
  | cons t ts ih =>
    by_cases ht : t.transaction_hash = h
    · simp [setTxBlock, findTx, ht]
    · simp [setTxBlock, findTx, ht, ih]

theorem findTx_upsert_none (db : DB) (h : String) (b : Int) (now : Nat)
    (hn : findTx db.transactions h = none) :
    findTx (upsertTransaction db h b now).transactions h
      = some { transaction_hash := h, block_number := b, created_at := now } := by
  unfold upsertTransaction
  rw [hn]
  simp [findTx]

theorem findTx_upsert_some (db : DB) (h : String) (b : Int) (now : Nat)
    (t : TransactionRec) (hs : findTx db.transactions h = some t) :
    findTx (upsertTransaction db h b now).transactions h
      = some (if t.block_number < b then { t with block_number := b } else t) := by
  unfold upsertTransaction
  rw [hs]
  dsimp only
  split
  · simp [findTx_setTxBlock, hs]
  · simp [hs]

theorem upsert_block_ge (db : DB) (h : String) (b : Int) (now : Nat) :
    ∃ u, findTx (upsertTransaction db h b now).transactions h = some u
      ∧ b ≤ u.block_number := by
  cases hf : findTx db.transactions h with
  | none =>
    exact ⟨_, findTx_upsert_none db h b now hf, le_refl b⟩
  | some t =>
    refine ⟨_, findTx_upsert_some db h b now t hf, ?_⟩
    split
    · exact le_refl b
    · omega

theorem upsert_noop_of_ge (db : DB) (h : String) (b : Int) (now : Nat)
    (t : TransactionRec) (hs : findTx db.transactions h = some t)
    (hge : ¬ t.block_number < b) :
    upsertTransaction db h b now = db := by
  unfold upsertTransaction
  rw [hs]
  simp [hge]

theorem txBlock_upsert (db : DB) (h : String) (b : Int) (now : Nat) :
    txBlock (upsertTransaction db h b now) h
      = some (max ((txBlock db h).getD b) b) := by
  cases hf : findTx db.transactions h with
  | none =>
    rw [txBlock, findTx_upsert_none db h b now hf]
    simp [txBlock, hf]
  | some t =>
    rw [txBlock, findTx_upsert_some db h b now t hf]
    simp only [txBlock, hf, Option.map_some, Option.getD_some]
    split <;> simp <;> omega

/-! ### Helper lemmas about one ingestion step -/

theorem ingest_dup (n ca : String) (now : Nat) (db : DB) (e : RawLogEntry)
    (hdup : eventExists db.events e.transactionHash e.logIndex = true) :
    ingestEntry n ca now db e
      = (upsertTransaction db e.transactionHash e.blockNumber now,
         EntryOutcome.duplicateSkipped) := by
  simp only [ingestEntry, upsert_events, hdup, if_true]

theorem ingest_inserted_shape (n ca : String) (now : Nat) (db : DB) (e : RawLogEntry) (f : Bool)
    (hfirst : (ingestEntry n ca now db e).2 = EntryOutcome.inserted f) :
    ∃ args tf,
      e.decoded = some args ∧
      (validate_transaction_hash e.transactionHash && validate_block_number e.blockNumber) = true ∧
      normalizeTyped n args = some tf ∧
      eventExists db.events e.transactionHash e.logIndex = false ∧
      f = detect_fraud n args ∧
      ingestEntry n ca now db e
        = ({ upsertTransaction db e.transactionHash e.blockNumber now with
              events :=
                { transaction := e.transactionHash, log_index := e.logIndex,
                  event_name := n, contract_address := ca,
                  block_timestamp := e.blockTimestamp, is_fraudulent := f,
                  data := dumps_default_str args, typed := tf }
                :: (upsertTransaction db e.transactionHash e.blockNumber now).events },
           EntryOutcome.inserted f) := by
  have hmain := hfirst
  simp only [ingestEntry] at hmain
  split at hmain
  · simp at hmain
  · next hdup =>
    rw [upsert_events] at hdup
    split at hmain
    · simp at hmain
    · next args hdec =>
      split at hmain
      · next hval =>
        split at hmain
        · simp at hmain
        · next tf hnorm =>
          simp only [Prod.snd] at hmain
          injection hmain with hf
          refine ⟨args, tf, hdec, hval, hnorm, by simpa using hdup, hf.symm, ?_⟩
          simp only [ingestEntry, hdec, hnorm, upsert_events]
          rw [if_neg (by simp [hdup]), if_pos hval]
          simp [hf]
      · simp at hmain

theorem ingest_fresh_ok (n ca : String) (now : Nat) (db : DB) (e : RawLogEntry)
    (hfresh : eventExists db.events e.transactionHash e.logIndex = false)
    (hok : entryOk n e = true) :
    ∃ f, (ingestEntry n ca now db e).2 = EntryOutcome.inserted f := by
  cases hdec : e.decoded with
  | none => simp [entryOk, hdec] at hok
  | some args =>
    simp only [entryOk, hdec, Bool.and_eq_true] at hok
    obtain ⟨⟨hv1, hv2⟩, hsome⟩ := hok
    obtain ⟨tf, htf⟩ := Option.isSome_iff_exists.mp hsome
    refine ⟨detect_fraud n args, ?_⟩
    simp only [ingestEntry, upsert_events, hdec, htf]
    rw [if_neg (by simp [hfresh]), if_pos (by simp [hv1, hv2])]

theorem ingest_rollback (n ca : String) (now : Nat) (db : DB) (e : RawLogEntry)
    (hfresh : eventExists db.events e.transactionHash e.logIndex = false)
    (hbad : entryOk n e = false) :
    (ingestEntry n ca now db e).1 = db
      ∧ isInserted (ingestEntry n ca now db e).2 = false := by
  cases hdec : e.decoded with
  | none =>
    simp only [ingestEntry, upsert_events, hdec]
    rw [if_neg (by simp [hfresh])]
    simp [isInserted]
  | some args =>
    simp only [entryOk, hdec] at hbad
    cases hval : (validate_transaction_hash e.transactionHash && validate_block_number e.blockNumber) with
    | false =>
      simp only [ingestEntry, upsert_events, hdec]
      rw [if_neg (by simp [hfresh]), if_neg (by simp [hval])]
      simp [isInserted]
    | true =>
      rw [hval] at hbad
      simp only [Bool.true_and] at hbad
      cases hnorm : normalizeTyped n args with
      | none =>
        simp only [ingestEntry, upsert_events, hdec, hnorm]
        rw [if_neg (by simp [hfresh]), if_pos hval]
        simp [isInserted]
      | some tf => simp [hnorm] at hbad

theorem ingest_no_late (n ca : String) (now : Nat) (db : DB) (e : RawLogEntry)
    (hl : lateOk n e = true) (f : Bool) :
    (ingestEntry n ca now db e).2 ≠ EntryOutcome.errorLate f := by
  intro hcontra
  simp only [ingestEntry] at hcontra
  split at hcontra
  · simp at hcontra
  · split at hcontra
    · simp at hcontra
    · next args hdec =>
      split at hcontra
      · next hval =>
        split at hcontra
        · next hnorm => simp [lateOk, hdec, hval, hnorm] at hl
        · simp at hcontra
      · simp at hcontra

theorem ingest_transactions_shape (n ca : String) (now : Nat) (db : DB) (e : RawLogEntry) :
    (ingestEntry n ca now db e).1.transactions = db.transactions
      ∨ (ingestEntry n ca now db e).1.transactions
          = (upsertTransaction db e.transactionHash e.blockNumber now).transactions := by
  simp only [ingestEntry]
  split
  · exact Or.inr rfl
  · split
    · exact Or.inl rfl
    · split
      · split
        · exact Or.inl rfl
        · exact Or.inr rfl
      · exact Or.inl rfl

theorem ingest_events_shape (n ca : String) (now : Nat) (db : DB) (e : RawLogEntry) :
    (ingestEntry n ca now db e).1.events = db.events
      ∨ ∃ ev, (ingestEntry n ca now db e).1.events = ev :: db.events
          ∧ ev.transaction = e.transactionHash ∧ ev.log_index = e.logIndex := by
  simp only [ingestEntry]
  split
  · exact Or.inl (upsert_events db e.transactionHash e.blockNumber now)
  · split
    · exact Or.inl rfl
    · split
      · split
        · exact Or.inl rfl
        · exact Or.inr ⟨_, by rw [upsert_events], rfl, rfl⟩
      · exact Or.inl rfl

theorem eventExists_mono_cons (ev : ContractEventRec) (evs : List ContractEventRec)
    (x : String) (y : Nat) (hold : eventExists evs x y = true) :
    eventExists (ev :: evs) x y = true := by
  simp only [eventExists]
  split
  · rfl
  · exact hold

theorem ingest_eventExists_mono (n ca : String) (now : Nat) (db : DB) (e : RawLogEntry)
    (x : String) (y : Nat) (hold : eventExists db.events x y = true) :
    eventExists (ingestEntry n ca now db e).1.events x y = true := by
  rcases ingest_events_shape n ca now db e with hsh | ⟨ev, hsh, _, _⟩
  · rw [hsh]; exact hold
  · rw [hsh]; exact eventExists_mono_cons ev db.events x y hold

theorem ingest_eventExists_frame (n ca : String) (now : Nat) (db : DB) (e : RawLogEntry)
    (x : String) (y : Nat) (hne : (x, y) ≠ entryKey e) :
    eventExists (ingestEntry n ca now db e).1.events x y = eventExists db.events x y := by
  rcases ingest_events_shape n ca now db e with hsh | ⟨ev, hsh, hket, hkei⟩
  · rw [hsh]
  · rw [hsh]
    simp only [eventExists]
    rw [if_neg]
    intro ⟨hx, hy⟩
    exact hne (by simp [entryKey, hket ▸ hx, hkei ▸ hy])

theorem txBlock_ingest (n ca : String) (now : Nat) (db : DB) (e : RawLogEntry)
    (hok : entryOk n e = true) :
    txBlock (ingestEntry n ca now db e).1 e.transactionHash
      = some (max ((txBlock db e.transactionHash).getD e.blockNumber) e.blockNumber) := by
  cases hdup : eventExists db.events e.transactionHash e.logIndex with
  | true =>
    rw [ingest_dup n ca now db e hdup]
    exact txBlock_upsert db e.transactionHash e.blockNumber now
  | false =>
    obtain ⟨f, hins⟩ := ingest_fresh_ok n ca now db e hdup hok
    obtain ⟨args, tf, _, _, _, _, _, heq⟩ := ingest_inserted_shape n ca now db e f hins
    rw [heq]
    exact txBlock_upsert db e.transactionHash e.blockNumber now

theorem ingest_tx_frame (n ca : String) (now : Nat) (db : DB) (e : RawLogEntry)
    (t : TransactionRec) (hfound : findTx db.transactions e.transactionHash = some t) :
    ∃ u, findTx (ingestEntry n ca now db e).1.transactions e.transactionHash = some u
      ∧ u.transaction_hash = t.transaction_hash ∧ u.created_at = t.created_at := by
  rcases ingest_transactions_shape n ca now db e with hsh | hsh
  · exact ⟨t, by rw [hsh]; exact hfound, rfl, rfl⟩
  · rw [hsh, findTx_upsert_some db e.transactionHash e.blockNumber now t hfound]
    refine ⟨_, rfl, ?_, ?_⟩ <;> split <;> rfl

/-! ### Helper lemmas about a batch run -/

theorem runBatch_cons (n ca : String) (now : Nat) (db : DB) (e : RawLogEntry)
    (rest : List RawLogEntry) :
    runBatch n ca now db (e :: rest)
      = ((runBatch n ca now (ingestEntry n ca now db e).1 rest).1,
         (ingestEntry n ca now db e).2
           :: (runBatch n ca now (ingestEntry n ca now db e).1 rest).2) := rfl

theorem runBatch_eventExists_mono (n ca : String) (now : Nat) (es : List RawLogEntry)
    (db : DB) (x : String) (y : Nat) (hold : eventExists db.events x y = true) :
    eventExists (runBatch n ca now db es).1.events x y = true := by
  induction es generalizing db with
  | nil => exact hold
  | cons e rest ih =>
    rw [runBatch_cons]
    exact ih _ (ingest_eventExists_mono n ca now db e x y hold)

theorem runBatch_counts (n ca : String) (now : Nat) (es : List RawLogEntry) (db : DB)
    (hnd : (es.map entryKey).Nodup)
    (hfresh : ∀ e ∈ es, eventExists db.events e.transactionHash e.logIndex = false) :
    countInserted (runBatch n ca now db es).2 = es.countP (fun e => entryOk n e)
      ∧ ∀ e ∈ es, entryOk n e = true →
          eventExists (runBatch n ca now db es).1.events e.transactionHash e.logIndex = true := by
  induction es generalizing db with
  | nil => exact ⟨rfl, by intro e he; cases he⟩
  | cons e rest ih =>
    rw [List.map_cons, List.nodup_cons] at hnd
    obtain ⟨hknot, hndr⟩ := hnd
    have hfe : eventExists db.events e.transactionHash e.logIndex = false :=
      hfresh e (List.mem_cons_self e rest)
    have hfreshr : ∀ e2 ∈ rest,
        eventExists (ingestEntry n ca now db e).1.events e2.transactionHash e2.logIndex = false := by
      intro e2 he2
      have hne : (e2.transactionHash, e2.logIndex) ≠ entryKey e := by
        intro hcontra
        exact hknot (by rw [← hcontra]; exact List.mem_map_of_mem entryKey he2)
      rw [ingest_eventExists_frame n ca now db e _ _ hne]
      exact hfresh e2 (List.mem_cons_of_mem e he2)
    cases hok : entryOk n e with
    | true =>
      obtain ⟨f, hins⟩ := ingest_fresh_ok n ca now db e hfe hok
      obtain ⟨hcnt, hpres⟩ := ih (ingestEntry n ca now db e).1 hndr hfreshr
      constructor
      · rw [runBatch_cons]
        simp only [countInserted, List.countP_cons, hins, isInserted, hok]
        simp [countInserted] at hcnt
        omega
      · intro e2 he2 hok2
        rcases List.mem_cons.mp he2 with rfl | he2r
        · rw [runBatch_cons]
          apply runBatch_eventExists_mono
          obtain ⟨args, tf, _, _, _, _, _, heq⟩ := ingest_inserted_shape n ca now db e2 f hins
          rw [heq]
          simp [eventExists]
        · rw [runBatch_cons]
          exact hpres e2 he2r hok2
    | false =>
      obtain ⟨hdb, hni⟩ := ingest_rollback n ca now db e hfe hok
      have hfreshr2 : ∀ e2 ∈ rest,
          eventExists (ingestEntry n ca now db e).1.events e2.transactionHash e2.logIndex = false := by
        intro e2 he2
        rw [hdb]
        exact hfresh e2 (List.mem_cons_of_mem e he2)
      obtain ⟨hcnt, hpres⟩ := ih (ingestEntry n ca now db e).1 hndr hfreshr2
      constructor
      · rw [runBatch_cons]
        simp only [countInserted, List.countP_cons, hni, hok]
        simp [countInserted] at hcnt
        omega
      · intro e2 he2 hok2
        rcases List.mem_cons.mp he2 with rfl | he2r
        · rw [hok2] at hok; cases hok
        · rw [runBatch_cons]
          exact hpres e2 he2r hok2

theorem runBatch_flag_counts (n ca : String) (now : Nat) (es : List RawLogEntry) (db : DB)
    (hlate : ∀ e ∈ es, lateOk n e = true) :
    countFlagged (runBatch n ca now db es).2
      = (runBatch n ca now db es).2.countP isInsertedTrue := by
  induction es generalizing db with
  | nil => rfl
  | cons e rest ih =>
    rw [runBatch_cons]
    simp only [countFlagged, List.countP_cons]
    have hhd : flaggedFraud (ingestEntry n ca now db e).2
        = isInsertedTrue (ingestEntry n ca now db e).2 := by
      cases ho : (ingestEntry n ca now db e).2 with
      | inserted f => cases f <;> rfl
      | duplicateSkipped => rfl
      | errorEarly => rfl
      | errorLate f =>
        exact absurd ho (ingest_no_late n ca now db e (hlate e (List.mem_cons_self e rest)) f)
    have hr := ih (ingestEntry n ca now db e).1
      (fun e2 he2 => hlate e2 (List.mem_cons_of_mem e he2))
    simp only [countFlagged] at hr
    rw [hhd, hr]

/-! ### Characterizations of the two fraud rules -/

theorem detect_fraud_tx_submitted (args : List (String × PyVal)) :
    detect_fraud "TransactionSubmitted" args
      = (match getArg args "amount" with
         | some (PyVal.vInt n) => decide (fraud_threshold < n)
         | some (PyVal.vBool b) => decide (fraud_threshold < (if b then (1 : Int) else 0))
         | _ => false) := by
  cases args with
  | nil => rfl
  | cons p rest =>
    simp only [detect_fraud, List.isEmpty_cons]
    rw [if_neg (by decide : ¬ ("TransactionSubmitted" = "ContractEvent"))]
    simp

theorem detect_fraud_contract_event (args : List (String × PyVal)) :
    detect_fraud "ContractEvent" args
      = (match getArg args "message" with
         | some (PyVal.vStr s) => containsSeq suspicious_phrase.data (lowerStr s).data
         | _ => false) := by
  cases args with
  | nil => rfl
  | cons p rest =>
    simp only [detect_fraud, List.isEmpty_cons]
    rw [if_neg (by decide : ¬ ("ContractEvent" = "TransactionSubmitted"))]
    simp

theorem leadsWith_iff (needle hay : List Char) :
    leadsWith needle hay = true ↔ ∃ rest, hay = needle ++ rest := by
  induction needle generalizing hay with
  | nil => simp [leadsWith]
  | cons a as ih =>
    cases hay with
    | nil => simp [leadsWith]
    | cons b bs =>
      simp only [leadsWith, Bool.and_eq_true, beq_iff_eq, ih, List.cons_append]
      constructor
      · rintro ⟨rfl, rest, rfl⟩
        exact ⟨rest, rfl⟩
      · rintro ⟨rest, heq⟩
        injection heq with h1 h2
        exact ⟨h1.symm, rest, h2⟩

theorem containsSeq_iff (needle hay : List Char) :
    containsSeq needle hay = true ↔ ∃ l r, hay = l ++ needle ++ r := by
  induction hay with
  | nil =>
    simp only [containsSeq, leadsWith_iff]
    constructor
    · rintro ⟨rest, h⟩
      exact ⟨[], rest, by simpa using h⟩
    · rintro ⟨l, r, h⟩
      rw [List.append_assoc] at h
      obtain ⟨hl, hr⟩ := List.append_eq_nil.mp h.symm
      obtain ⟨hn, hr2⟩ := List.append_eq_nil.mp hr
      exact ⟨[], by simp [hn]⟩
  | cons b bs ih =>
    simp only [containsSeq, Bool.or_eq_true, leadsWith_iff, ih]
    constructor
    · rintro (⟨rest, h⟩ | ⟨l, r, h⟩)
      · exact ⟨[], rest, by simpa using h⟩
      · exact ⟨b :: l, r, by simp [h]⟩
    · rintro ⟨l, r, h⟩
      cases l with
      | nil => exact Or.inl ⟨r, by simpa using h⟩
      | cons x xs =>
        rw [List.cons_append, List.cons_append] at h
        injection h with h1 h2
        exact Or.inr ⟨xs, r, by simpa using h2⟩

theorem countP_add_countP_not {α : Type} (p : α → Bool) (l : List α) :
    l.countP p + l.countP (fun a => !p a) = l.length := by
  induction l with
  | nil => rfl
  | cons a l ih =>
    simp only [List.countP_cons, List.length_cons]
    cases hpa : p a <;> simp <;> omega

/-! ### The claims -/

/-- C1: ingestion is idempotent. If processing a raw log entry returns
Inserted, then processing the very same entry again (at any later clock
value) returns DuplicateSkipped and leaves the database exactly as the
first ingestion left it, so the stored ContractEvent row for that
(transaction hash, log position) pair still has exactly the content the
first ingestion stored. -/
theorem claim_C1_idempotent_ingest (n ca : String) (now now2 : Nat) (db : DB)
    (e : RawLogEntry) (f : Bool)
    (hfirst : (ingestEntry n ca now db e).2 = EntryOutcome.inserted f) :
    ingestEntry n ca now2 (ingestEntry n ca now db e).1 e
      = ((ingestEntry n ca now db e).1, EntryOutcome.duplicateSkipped) := by
  obtain ⟨args, tf, hdec, hval, hnorm, hfresh, hf, heq⟩ :=
    ingest_inserted_shape n ca now db e f hfirst
  obtain ⟨u, hu, hub⟩ := upsert_block_ge db e.transactionHash e.blockNumber now
  have hfind : findTx (ingestEntry n ca now db e).1.transactions e.transactionHash = some u := by
    rw [heq]
    exact hu
  have hdup2 : eventExists (ingestEntry n ca now db e).1.events e.transactionHash e.logIndex
      = true := by
    rw [heq]
    simp [eventExists]
  have hnoop : upsertTransaction (ingestEntry n ca now db e).1 e.transactionHash e.blockNumber now2
      = (ingestEntry n ca now db e).1 :=
    upsert_noop_of_ge _ _ _ now2 u hfind (by omega)
  rw [ingest_dup n ca now2 (ingestEntry n ca now db e).1 e hdup2, hnoop]

/-- C1 witness: a concrete generic-message entry ingested into the empty
store yields Inserted, and re-ingesting it at a later clock yields
DuplicateSkipped with the database unchanged. -/
theorem claim_C1_witness :
    (ingestEntry "ContractEvent" contractAddr0 5 emptyDB entryC1).2
        = EntryOutcome.inserted false
    ∧ ingestEntry "ContractEvent" contractAddr0 9
          (ingestEntry "ContractEvent" contractAddr0 5 emptyDB entryC1).1 entryC1
        = ((ingestEntry "ContractEvent" contractAddr0 5 emptyDB entryC1).1,
           EntryOutcome.duplicateSkipped) :=
  ⟨rfl, claim_C1_idempotent_ingest "ContractEvent" contractAddr0 5 9 emptyDB entryC1 false rfl⟩

theorem ingestSeq_cons (ca : String) (now : Nat) (db : DB) (q : String × RawLogEntry)
    (rest : List (String × RawLogEntry)) :
    ingestSeq ca now db (q :: rest)
      = ingestSeq ca now (ingestEntry q.1 ca now db q.2).1 rest := by
  obtain ⟨n, e⟩ := q
  rfl

theorem ingestSeq_max (ca : String) (now : Nat) (h : String)
    (qs : List (String × RawLogEntry)) (db : DB) (b : Int)
    (hstart : txBlock db h = some b)
    (hall : ∀ q ∈ qs, q.2.transactionHash = h ∧ entryOk q.1 q.2 = true) :
    txBlock (ingestSeq ca now db qs) h
      = some (qs.foldl (fun a q => max a q.2.blockNumber) b) := by
  induction qs generalizing db b with
  | nil => exact hstart
  | cons q rest ih =>
    obtain ⟨hh, hok⟩ := hall q (List.mem_cons_self q rest)
    have hstep := txBlock_ingest q.1 ca now db q.2 hok
    rw [hh, hstart] at hstep
    simp only [Option.getD_some] at hstep
    rw [ingestSeq_cons, List.foldl_cons]
    exact ih _ _ hstep (fun q2 hq2 => hall q2 (List.mem_cons_of_mem q hq2))

/-- C2: the stored block number of a Transaction is the maximum of all
observed block numbers. Starting from the empty store, after any finite
sequence of observations of the same hash (each processed without a
per-entry error, under whatever event type it was polled as), the
stored block_number equals the maximum of the observed block numbers,
whatever the arrival order; in particular a later lower observation
never lowers it. -/
theorem claim_C2_monotone_max_block (ca : String) (now : Nat) (h : String)
    (p : String × RawLogEntry) (ps : List (String × RawLogEntry))
    (hall : ∀ q ∈ p :: ps, q.2.transactionHash = h ∧ entryOk q.1 q.2 = true) :
    txBlock (ingestSeq ca now emptyDB (p :: ps)) h
      = some (ps.foldl (fun a q => max a q.2.blockNumber) p.2.blockNumber) := by
  obtain ⟨hh, hok⟩ := hall p (List.mem_cons_self p ps)
  have hstep := txBlock_ingest p.1 ca now emptyDB p.2 hok
  rw [hh] at hstep
  have hnone : txBlock emptyDB h = none := rfl
  rw [hnone] at hstep
  simp only [Option.getD_none, max_self] at hstep
  rw [ingestSeq_cons]
  exact ingestSeq_max ca now h ps _ p.2.blockNumber hstep
    (fun q hq => hall q (List.mem_cons_of_mem p hq))

/-- C2 witness: observing hashA at block 105 and then at the lower
block 100 leaves the stored block number at 105, the maximum. -/
theorem claim_C2_witness :
    txBlock (ingestSeq contractAddr0 0 emptyDB
        [("ContractEvent", entryC2a), ("ContractEvent", entryC2b)]) hashA
      = some 105 := by
  have hres := claim_C2_monotone_max_block contractAddr0 0 hashA
    ("ContractEvent", entryC2a) [("ContractEvent", entryC2b)] (by decide)
  simpa using hres

/-- C3 counterexample: a single generic-message entry whose message is
classified fraudulent but whose non-numeric decoded timestamp makes the
row insert raise. The run inserts nothing, yet the flagged counter is
1, so the flagged counter does not equal the number of Inserted entries
with verdict true, and a per-entry error did contribute to it. -/
theorem claim_C3_counterexample :
    (runBatch "ContractEvent" contractAddr0 0 emptyDB [entryC3bad]).2
        = [EntryOutcome.errorLate true]
    ∧ countInserted (runBatch "ContractEvent" contractAddr0 0 emptyDB [entryC3bad]).2 = 0
    ∧ countFlagged (runBatch "ContractEvent" contractAddr0 0 emptyDB [entryC3bad]).2 = 1 :=
  ⟨rfl, rfl, rfl⟩

/-- C3 amended: on any batch in which no entry can raise between the
fraud check and the row insert, the flagged counter equals the number
of entries that resulted in Inserted with verdict true; DuplicateSkipped
entries and entries failing before classification never contribute to
either counter. In general the flagged counter counts every
non-duplicate entry that reaches classification with verdict true, even
when its subsequent insert fails. -/
theorem claim_C3_flagged_counter (n ca : String) (now : Nat) (db : DB)
    (es : List RawLogEntry)
    (hlate : ∀ e ∈ es, lateOk n e = true) :
    countFlagged (runBatch n ca now db es).2
      = (runBatch n ca now db es).2.countP isInsertedTrue :=
  runBatch_flag_counts n ca now es db hlate

/-- C3 witness: a batch with one fraudulent insert, a duplicate of it
and a decode failure has flagged counter 1, matching the single
Inserted-with-verdict-true outcome. -/
theorem claim_C3_witness :
    countFlagged (runBatch "ContractEvent" contractAddr0 0 emptyDB
        [entryC3ok, entryC3ok, entryC3err]).2
      = (runBatch "ContractEvent" contractAddr0 0 emptyDB
          [entryC3ok, entryC3ok, entryC3err]).2.countP isInsertedTrue :=
  claim_C3_flagged_counter "ContractEvent" contractAddr0 0 emptyDB
    [entryC3ok, entryC3ok, entryC3err] (by decide)

/-- C4 counterexample: an integer argument larger than any fixed-width
machine word is serialized by json.dumps as an arbitrary-precision JSON
number (its decimal digits, unquoted), not as its decimal string form;
the claim that large integers are stored as decimal strings fails. -/
theorem claim_C4_counterexample :
    dumps_default_str [("amount", PyVal.vInt (10 ^ 24 + 1))]
        = Json.jObj [("amount", Json.jNum (10 ^ 24 + 1))]
    ∧ dumps_default_str [("amount", PyVal.vInt (10 ^ 24 + 1))]
        ≠ Json.jObj [("amount", Json.jStr "1000000000000000000000001")] := by
  refine ⟨rfl, ?_⟩
  intro hcontra
  simp [dumps_default_str, pyToJson] at hcontra

/-- C4 amended: the full decoded-argument payload is stored as a JSON
object mapping each string key to its value in the domain of strings,
arbitrary-precision integers, booleans and null; every value of this
domain is natively representable, an integer of any size being
serialized as an arbitrary-precision JSON number in decimal form (the
str fallback applies only to values outside this domain), and the
representation round-trips the decoded arguments exactly. -/
theorem claim_C4_payload_roundtrip :
    (∀ n : Int, pyToJson (PyVal.vInt n) = Json.jNum n)
    ∧ ∀ args : List (String × PyVal), loadsArgs (dumps_default_str args) = some args := by
  refine ⟨fun n => rfl, ?_⟩
  intro args
  induction args with
  | nil => rfl
  | cons p rest ih =>
    obtain ⟨k, v⟩ := p
    simp only [dumps_default_str, List.map_cons, loadsArgs, jsonFieldsToArgs]
    have hv : jsonToPy (pyToJson v) = some v := by cases v <;> rfl
    rw [hv]
    simp only [dumps_default_str, loadsArgs] at ih
    rw [ih]

/-- C5: for TransactionSubmitted events whose decoded amount is an
integer, the verdict is true exactly when the amount strictly exceeds
the fixed threshold of 10^24 base units; an amount equal to the
threshold yields false and one unit above yields true (see the
witness). -/
theorem claim_C5_threshold (args : List (String × PyVal)) (n : Int)
    (hamt : getArg args "amount" = some (PyVal.vInt n)) :
    detect_fraud "TransactionSubmitted" args = decide (fraud_threshold < n) := by
  rw [detect_fraud_tx_submitted, hamt]

/-- C5 witness: an amount of exactly 10^24 does not trigger the
high-amount rule and 10^24 + 1 does. -/
theorem claim_C5_witness :
    detect_fraud "TransactionSubmitted" [("amount", PyVal.vInt (10 ^ 24))] = false
    ∧ detect_fraud "TransactionSubmitted" [("amount", PyVal.vInt (10 ^ 24 + 1))] = true := by
  constructor
  · rw [claim_C5_threshold [("amount", PyVal.vInt (10 ^ 24))] (10 ^ 24) rfl]
    decide
  · rw [claim_C5_threshold [("amount", PyVal.vInt (10 ^ 24 + 1))] (10 ^ 24 + 1) rfl]
    decide

/-- C6: for ContractEvent events the verdict is true exactly when the
decoded message is a string whose lowercased form contains the
configured suspicious phrase (case-insensitive containment); for every
input on which extracting the message fails, that is, the key is absent
or its value is not a string so that calling lower() on it raises, the
rule evaluates to false rather than propagating the error. -/
theorem claim_C6_message_rule (args : List (String × PyVal)) :
    detect_fraud "ContractEvent" args = true
      ↔ ∃ s l r, getArg args "message" = some (PyVal.vStr s)
          ∧ (lowerStr s).data = l ++ suspicious_phrase.data ++ r := by
  rw [detect_fraud_contract_event]
  cases hm : getArg args "message" with
  | none => simp [hm]
  | some v =>
    cases v with
    | vStr s =>
      simp only [hm]
      rw [containsSeq_iff]
      constructor
      · rintro ⟨l, r, hlr⟩
        exact ⟨s, l, r, rfl, hlr⟩
      · rintro ⟨s2, l, r, hs2, hlr⟩
        have hss : s2 = s := by
          injection hs2 with h1
          injection h1 with h2
          exact h2.symm
        subst hss
        exact ⟨l, r, hlr⟩
    | vInt m => simp [hm]
    | vBool b => simp [hm]
    | vNone => simp [hm]

/-- C6 witness: a message containing the phrase in mixed case is
flagged, and a non-string message (whose extraction raises) yields
false. -/
theorem claim_C6_witness :
    detect_fraud "ContractEvent"
        [("message", PyVal.vStr "Please beware, this is a PHISHING attempt")] = true
    ∧ detect_fraud "ContractEvent" [("message", PyVal.vInt 7)] = false := by
  constructor
  · exact (claim_C6_message_rule _).mpr
      ⟨"Please beware, this is a PHISHING attempt", "please beware, this is a ".data, [],
       rfl, by decide⟩
  · rw [Bool.eq_false_iff]
    intro htrue
    obtain ⟨s, l, r, hs, _⟩ := (claim_C6_message_rule [("message", PyVal.vInt 7)]).mp htrue
    simp [getArg] at hs

/-- C7: partial-failure isolation. For a batch of pairwise-distinct
(transaction hash, log position) keys run against the empty store in
which exactly one entry is malformed (its decode, validation or
normalize/insert raises), the inserted count equals N - 1 and every
well-formed entry of the batch ends up stored. -/
theorem claim_C7_partial_failure (n ca : String) (now : Nat) (es : List RawLogEntry)
    (hnd : (es.map entryKey).Nodup)
    (hone : es.countP (fun e => !entryOk n e) = 1) :
    countInserted (runBatch n ca now emptyDB es).2 = es.length - 1
    ∧ ∀ e ∈ es, entryOk n e = true →
        eventExists (runBatch n ca now emptyDB es).1.events e.transactionHash e.logIndex
          = true := by
  obtain ⟨hcnt, hpres⟩ := runBatch_counts n ca now es emptyDB hnd (fun e he => rfl)
  refine ⟨?_, hpres⟩
  rw [hcnt]
  have htot := countP_add_countP_not (fun e => entryOk n e) es
  have hone2 : es.countP (fun a => !(fun e => entryOk n e) a) = 1 := hone
  omega

/-- C7 witness: a batch of three entries with distinct keys, of which
exactly one fails to decode, inserts the other two. -/
theorem claim_C7_witness :
    countInserted (runBatch "ContractEvent" contractAddr0 0 emptyDB
        [entryC7a, entryC7bad, entryC7b]).2 = 3 - 1 :=
  (claim_C7_partial_failure "ContractEvent" contractAddr0 0 [entryC7a, entryC7bad, entryC7b]
    (by decide) (by decide)).1

/-- C8: per-event-type fetch-failure isolation. A run in which one
configured event type fails to fetch, by a connectivity error or by the
event name being absent from the ABI, produces exactly the database,
the entry outcomes and hence the summary counters of the same run
without that event type: only the failing type is skipped, the
remaining types are processed, and the run still ends in a summary
rather than a fatal error. -/
theorem claim_C8_type_isolation (ca : String) (now : Nat) (db : DB)
    (pre rest : List (String × FetchResult)) (n : String) :
    poll_event_types ca now db (pre ++ (n, FetchResult.connectivityError) :: rest)
        = poll_event_types ca now db (pre ++ rest)
    ∧ poll_event_types ca now db (pre ++ (n, FetchResult.absentFromAbi) :: rest)
        = poll_event_types ca now db (pre ++ rest) := by
  induction pre generalizing db with
  | nil => exact ⟨rfl, rfl⟩
  | cons q qs ih =>
    obtain ⟨qn, qf⟩ := q
    cases qf with
    | fetched es =>
      simp only [List.cons_append, poll_event_types, List.append_eq]
      rw [(ih _).1, (ih _).2]
      exact ⟨rfl, rfl⟩
    | absentFromAbi =>
      simp only [List.cons_append, poll_event_types]
      exact ih db
    | connectivityError =>
      simp only [List.cons_append, poll_event_types]
      exact ih db

/-- C9: frame condition on Transaction updates. When an observation
arrives for a transaction hash that is already stored, the row for that
hash still exists afterwards and its transaction_hash and its
first-seen timestamp created_at are unchanged, whatever the outcome of
the entry (only block_number may differ). -/
theorem claim_C9_tx_frame (n ca : String) (now : Nat) (db : DB) (e : RawLogEntry)
    (t : TransactionRec)
    (hfound : findTx db.transactions e.transactionHash = some t) :
    ∃ u, findTx (ingestEntry n ca now db e).1.transactions e.transactionHash = some u
      ∧ u.transaction_hash = t.transaction_hash ∧ u.created_at = t.created_at :=
  ingest_tx_frame n ca now db e t hfound

/-- C9 witness: ingesting a later higher-block observation of hashA
into a store that first saw hashA at clock 3 keeps the hash and the
first-seen timestamp of the row. -/
theorem claim_C9_witness :
    ∃ u, findTx (ingestEntry "ContractEvent" contractAddr0 77 dbC9 entryC9).1.transactions
            entryC9.transactionHash = some u
      ∧ u.transaction_hash = hashA ∧ u.created_at = 3 :=
  claim_C9_tx_frame "ContractEvent" contractAddr0 77 dbC9 entryC9
    { transaction_hash := hashA, block_number := 50, created_at := 3 } rfl

/-- C10: the high-amount rule fires only for integer-typed amounts. For
every TransactionSubmitted event whose decoded amount key is absent or
holds a non-int value (a string representation of a number, None, and
so on), the verdict is false regardless of the magnitude the value
denotes. -/
theorem claim_C10_nonint_amount (args : List (String × PyVal))
    (h : amountNotInt args) :
    detect_fraud "TransactionSubmitted" args = false := by
  rw [detect_fraud_tx_submitted]
  unfold amountNotInt at h
  cases hm : getArg args "amount" with
  | none => simp [hm]
  | some v =>
    rw [hm] at h
    cases v with
    | vStr s => simp [hm]
    | vInt m => simp at h
    | vBool b =>
      simp only [hm]
      cases b <;> decide
    | vNone => simp [hm]

/-- C10 witness: a string amount far above the threshold still yields
verdict false. -/
theorem claim_C10_witness :
    detect_fraud "TransactionSubmitted"
      [("amount", PyVal.vStr "9999999999999999999999999999999999")] = false :=
  claim_C10_nonint_amount
    [("amount", PyVal.vStr "9999999999999999999999999999999999")] True.intro

example : detect_fraud "TransactionSubmitted" [("amount", PyVal.vInt (10 ^ 24 + 1))] = true := by decide
example : detect_fraud "TransactionSubmitted" [("amount", PyVal.vInt (10 ^ 24))] = false := by decide
example : detect_fraud "ContractEvent" [("message", PyVal.vStr "A PHISHING ATTEMPT here")] = true := by decide
example : detect_fraud "ContractEvent" [("message", PyVal.vStr "hello world")] = false := by decide
example : validate_transaction_hash "0xaaaaaaaaaaaaaaaaaaaaaaaaaaaaaaaaaaaaaaaaaaaaaaaaaaaaaaaaaaaaaaaa" = true := by decide
example : validate_transaction_hash "0xzz" = false := by decide
